import Mathlib

/-
Verification development for the `govote_voting_v1` Concordium smart contract
(src/src/lib.rs). The contract state and its operations are shallowly embedded
as pure Lean functions: the host's `StateMap`/`StateSet` become association
lists and lists (insertion-ordered, matching the dense-integer keys used by the
contract), `Timestamp` becomes `Nat`, account addresses become `Nat`, and each
receive function becomes a function `... → Except ContractError State`. The
host applies a call transactionally: on `Except.error` no mutation survives,
so an error result carries no state.
-/

deriving instance DecidableEq for Except

namespace Voting

/-- Voter record (src/src/lib.rs `VoterState`): weight, voted flag, chosen proposal. -/
structure VoterState where
  weight : Nat
  voted : Bool
  vote : Nat
deriving DecidableEq

/-- Proposal (src/src/lib.rs `Proposal`): display name and running vote count. -/
structure Proposal where
  name : String
  vote_count : Nat
deriving DecidableEq

/-- Contract status flag (src/src/lib.rs `Status`). -/
inductive Status
  | InProcess
  | Finished
deriving DecidableEq

/-- Sender identity (concordium `Address`): a primary account or a contract instance. -/
inductive Address
  | Account (a : Nat)
  | Contract (c : Nat)
deriving DecidableEq

/-- Error type (src/src/lib.rs `ContractError`), non-commented variants only. -/
inductive ContractError
  | ParseParams
  | LogFull
  | LogMalformed
  | AlreadyFinished
  | Expired
  | VoterIsNotFound
  | NotVoted
  | ProposalIsNotFound
  | ContractSender
deriving DecidableEq

/-- Association-list lookup, first matching key wins (models `StateMap::get`). -/
def lookupA {β : Type} : List (Nat × β) → Nat → Option β
  | [], _ => none
  | (k, v) :: t, k' => if k' = k then some v else lookupA t k'

/-- Association-list insert: replace the first binding of the key in place, or
append a fresh binding at the end (models `StateMap::insert` / entry mutation). -/
def insertA {β : Type} : List (Nat × β) → Nat → β → List (Nat × β)
  | [], k, v => [(k, v)]
  | (k', v') :: t, k, v => if k = k' then (k, v) :: t else (k', v') :: insertA t k v

/-- Set insert for the winning-id `StateSet`: no duplicates. -/
def insertSet (l : List Nat) (x : Nat) : List Nat :=
  if x ∈ l then l else l ++ [x]

/-- Full contract state (src/src/lib.rs `State<S>`). -/
structure State where
  voters : List (Nat × VoterState)
  proposals : List (Nat × Proposal)
  status : Status
  winning_proposal_id : List Nat
  title : String
  description : String
  expiry : Nat
deriving DecidableEq

/-- Registry built by `State::empty`'s loop: `proposals.insert(i as u8, Proposal::new(name, 0))`
for each enumerated name. The `as u8` cast truncates, hence the key `i % 256`. -/
def buildProposalsAux : Nat → List String → List (Nat × Proposal) → List (Nat × Proposal)
  | _, [], m => m
  | i, name :: rest, m => buildProposalsAux (i + 1) rest (insertA m (i % 256) ⟨name, 0⟩)

/-- Initialization (src/src/lib.rs `State::empty`, reached via `contract_init`). -/
def State.empty (title description : String) (proposal_names : List String)
    (expiry : Nat) : State :=
  { voters := []
    proposals := buildProposalsAux 0 proposal_names []
    status := Status.InProcess
    winning_proposal_id := []
    title := title
    description := description
    expiry := expiry }

/-- Undo step of `State::vote` (src/src/lib.rs lines 178-184): if the record has
already voted, decrement the previously chosen proposal's count by the stored
weight (failing when that proposal is missing). -/
def undoPrevVote (proposals : List (Nat × Proposal)) (voter_state : VoterState) :
    Except ContractError (List (Nat × Proposal)) :=
  if voter_state.voted = true then
    match lookupA proposals voter_state.vote with
    | none => Except.error ContractError.ProposalIsNotFound
    | some proposal =>
        Except.ok (insertA proposals voter_state.vote
          { proposal with vote_count := proposal.vote_count - voter_state.weight })
  else Except.ok proposals

/-- Internal vote mutation (src/src/lib.rs `State::vote`, lines 171-197): fetch or
lazily default the caller's record, run the undo step, then look up the target
proposal, set the record to weight 1 / voted / target, and increment the target's
count by the (new) weight. -/
def State.vote (s : State) (voter_address : Nat) (proposal_id : Nat) :
    Except ContractError State :=
  let voter_state := (lookupA s.voters voter_address).getD ⟨0, false, 0⟩
  match undoPrevVote s.proposals voter_state with
  | Except.error e => Except.error e
  | Except.ok proposals1 =>
    match lookupA proposals1 proposal_id with
    | none => Except.error ContractError.ProposalIsNotFound
    | some proposal =>
      let new_voter : VoterState := ⟨1, true, proposal_id⟩
      Except.ok { s with
        voters := insertA s.voters voter_address new_voter
        proposals := insertA proposals1 proposal_id
          { proposal with vote_count := proposal.vote_count + new_voter.weight } }

/-- Internal cancel mutation (src/src/lib.rs `State::cancel_vote`, lines 199-217):
the record must exist (else `VoterIsNotFound`) and have voted (else `NotVoted`);
then the chosen proposal's count is decremented by the stored weight and the
record is reset to `voted = false, vote = 0`. -/
def State.cancel_vote (s : State) (voter_address : Nat) : Except ContractError State :=
  match lookupA s.voters voter_address with
  | none => Except.error ContractError.VoterIsNotFound
  | some voter_state =>
    if voter_state.voted = true then
      match lookupA s.proposals voter_state.vote with
      | none => Except.error ContractError.ProposalIsNotFound
      | some proposal =>
        Except.ok { s with
          proposals := insertA s.proposals voter_state.vote
            { proposal with vote_count := proposal.vote_count - voter_state.weight }
          voters := insertA s.voters voter_address
            { voter_state with voted := false, vote := 0 } }
    else Except.error ContractError.NotVoted

/-- Receive entrypoint `vote` (src/src/lib.rs `contract_vote`, lines 255-286), after
parameter parsing. Check order as written in the source: sender must be an
account, the proposal must exist, the tally must not have run, the slot time
must not exceed the expiry; then `State::vote` runs. -/
def contract_vote (sender : Address) (slot_time : Nat) (proposal_id : Nat)
    (s : State) : Except ContractError State :=
  match sender with
  | Address.Contract _ => Except.error ContractError.ContractSender
  | Address.Account sender_address =>
    match lookupA s.proposals proposal_id with
    | none => Except.error ContractError.ProposalIsNotFound
    | some _ =>
      if s.status = Status.Finished then Except.error ContractError.AlreadyFinished
      else if slot_time ≤ s.expiry then s.vote sender_address proposal_id
      else Except.error ContractError.Expired

/-- One iteration of the tally loop body (src/src/lib.rs lines 307-315): a strictly
larger count resets the running maximum and replaces the winning set with the
current id; an equal count inserts the id; a smaller count changes nothing. -/
def tallyStep (acc : Nat × List Nat) (kv : Nat × Proposal) : Nat × List Nat :=
  if acc.1 < kv.2.vote_count then (kv.2.vote_count, insertSet [] kv.1)
  else if acc.1 = kv.2.vote_count then (acc.1, insertSet acc.2 kv.1)
  else acc

/-- The state produced by a successful `winningProposal` call: the scan folds
`tallyStep` over the stored proposals starting from count 0 and the current
(not cleared) winning set, then the status is set to Finished. -/
def tallyResult (s : State) : State :=
  { s with
    status := Status.Finished
    winning_proposal_id := (s.proposals.foldl tallyStep (0, s.winning_proposal_id)).2 }

/-- Receive entrypoint `winningProposal` (src/src/lib.rs `contract_winning_proposal`,
lines 290-321): fails with `AlreadyFinished` when the status is Finished, otherwise
performs the scan and sets the status to Finished unconditionally. -/
def contract_winning_proposal (s : State) : Except ContractError State :=
  if s.status = Status.Finished then Except.error ContractError.AlreadyFinished
  else Except.ok (tallyResult s)

/-- Receive entrypoint `cancelVote` (src/src/lib.rs `cancel_vote`, lines 325-349):
sender must be an account, the tally must not have run, the slot time must not
exceed the expiry; then `State::cancel_vote` runs. -/
def cancel_vote (sender : Address) (slot_time : Nat) (s : State) :
    Except ContractError State :=
  match sender with
  | Address.Contract _ => Except.error ContractError.ContractSender
  | Address.Account sender_address =>
    if s.status = Status.Finished then Except.error ContractError.AlreadyFinished
    else if slot_time ≤ s.expiry then s.cancel_vote sender_address
    else Except.error ContractError.Expired

/-- Whether an operation result is a success. -/
def exceptIsOk : Except ContractError State → Bool
  | Except.ok _ => true
  | Except.error _ => false

/-- Weight this voter record currently contributes to the count of proposal `id`. -/
def contrib (vs : VoterState) (id : Nat) : Nat :=
  if vs.voted = true ∧ vs.vote = id then vs.weight else 0

/-- Total weight the voter ledger contributes to the count of proposal `id`. -/
def sumVotes (voters : List (Nat × VoterState)) (id : Nat) : Nat :=
  (voters.map (fun kv => contrib kv.2 id)).sum

/-- Conservation: every stored proposal's count is the total weight of the voter
records that currently vote for it. -/
def Conserved (s : State) : Prop :=
  ∀ id p, lookupA s.proposals id = some p → p.vote_count = sumVotes s.voters id

/-- Every voter record that has voted points at an existing proposal. -/
def TargetsExist (s : State) : Prop :=
  ∀ kv ∈ s.voters, kv.2.voted = true → (lookupA s.proposals kv.2.vote).isSome = true

/-- The inductive invariant maintained by the three entrypoints. -/
def Inv (s : State) : Prop :=
  Conserved s ∧ TargetsExist s ∧
    (s.status = Status.InProcess → s.winning_proposal_id = [])

/-- States reachable from some initialization through successful calls of the
three mutating entrypoints. -/
inductive Reachable : State → Prop
  | init (title description : String) (names : List String) (expiry : Nat) :
      Reachable (State.empty title description names expiry)
  | vote {s s' : State} {sender : Address} {t pid : Nat} :
      Reachable s → contract_vote sender t pid s = Except.ok s' → Reachable s'
  | cancel {s s' : State} {sender : Address} {t : Nat} :
      Reachable s → cancel_vote sender t s = Except.ok s' → Reachable s'
  | tally {s s' : State} :
      Reachable s → contract_winning_proposal s = Except.ok s' → Reachable s'

/-- Running maximum of the vote counts, as folded by the tally loop. -/
def maxFold (l : List (Nat × Proposal)) (m : Nat) : Nat :=
  l.foldl (fun acc kv => max acc kv.2.vote_count) m

/-- The dense registry the spec describes: ids i, i+1, ... in list order, all counts 0. -/
def denseFrom : Nat → List String → List (Nat × Proposal)
  | _, [] => []
  | i, name :: rest => (i, ⟨name, 0⟩) :: denseFrom (i + 1) rest

/-- Concrete four-proposal state with vote counts [3, 5, 5, 2]. -/
def exProps3552 : State :=
  { voters := []
    proposals := [(0, ⟨"a", 3⟩), (1, ⟨"b", 5⟩), (2, ⟨"c", 5⟩), (3, ⟨"d", 2⟩)]
    status := Status.InProcess
    winning_proposal_id := []
    title := "t"
    description := "d"
    expiry := 10 }

/-- Concrete three-proposal state with all-zero vote counts. -/
def exPropsZero : State :=
  { voters := []
    proposals := [(0, ⟨"a", 0⟩), (1, ⟨"b", 0⟩), (2, ⟨"c", 0⟩)]
    status := Status.InProcess
    winning_proposal_id := []
    title := "t"
    description := "d"
    expiry := 10 }

/-- Concrete state after the tally has run. -/
def exFinished : State :=
  { voters := []
    proposals := [(0, ⟨"a", 0⟩)]
    status := Status.Finished
    winning_proposal_id := [0]
    title := "t"
    description := "d"
    expiry := 10 }

/-- The state reached from `State.empty "t" "d" ["a"] 3` by account 7 voting for
proposal 0. -/
def exVoted : State :=
  { voters := [(7, ⟨1, true, 0⟩)]
    proposals := [(0, ⟨"a", 1⟩)]
    status := Status.InProcess
    winning_proposal_id := []
    title := "t"
    description := "d"
    expiry := 3 }

/-- Spec-order checker for `vote`, written from the amended C3 claim: sender
checked first, then proposal existence, then status, then expiry; the first
failing check determines the error. -/
def voteCheckedSpec (sender : Address) (slot_time : Nat) (proposal_id : Nat)
    (s : State) : Except ContractError State :=
  match sender with
  | Address.Contract _ => Except.error ContractError.ContractSender
  | Address.Account a =>
    if (lookupA s.proposals proposal_id).isSome = false then
      Except.error ContractError.ProposalIsNotFound
    else if s.status = Status.Finished then Except.error ContractError.AlreadyFinished
    else if ¬ slot_time ≤ s.expiry then Except.error ContractError.Expired
    else s.vote a proposal_id

/-- Spec-order checker for `cancelVote`, written from the amended C4 claim: sender
checked first, then status, then expiry, then record existence, then the voted
flag; the first failing check determines the error. -/
def cancelCheckedSpec (sender : Address) (slot_time : Nat) (s : State) :
    Except ContractError State :=
  match sender with
  | Address.Contract _ => Except.error ContractError.ContractSender
  | Address.Account a =>
    if s.status = Status.Finished then Except.error ContractError.AlreadyFinished
    else if ¬ slot_time ≤ s.expiry then Except.error ContractError.Expired
    else match lookupA s.voters a with
      | none => Except.error ContractError.VoterIsNotFound
      | some voter_state =>
        if voter_state.voted = false then Except.error ContractError.NotVoted
        else match lookupA s.proposals voter_state.vote with
          | none => Except.error ContractError.ProposalIsNotFound
          | some proposal =>
            Except.ok { s with
              proposals := insertA s.proposals voter_state.vote
                { proposal with vote_count := proposal.vote_count - voter_state.weight }
              voters := insertA s.voters a
                { voter_state with voted := false, vote := 0 } }

theorem lookupA_insertA_self {β : Type} (l : List (Nat × β)) (k : Nat) (v : β) :
    lookupA (insertA l k v) k = some v := by
  induction l with
  | nil => simp [insertA, lookupA]
  | cons hd t ih =>
    obtain ⟨k', v'⟩ := hd
    by_cases h : k = k'
    · simp [insertA, lookupA, h]
    · simp [insertA, lookupA, h, ih]

theorem lookupA_insertA_ne {β : Type} (l : List (Nat × β)) (k : Nat) (v : β) (k' : Nat)
    (h : k' ≠ k) : lookupA (insertA l k v) k' = lookupA l k' := by
  induction l with
  | nil => simp [insertA, lookupA, h]
  | cons hd t ih =>
    obtain ⟨k₀, v₀⟩ := hd
    by_cases hk : k = k₀
    · subst hk
      simp [insertA, lookupA, h]
    · by_cases hk' : k' = k₀ <;> simp [insertA, lookupA, hk, hk', ih]

theorem lookupA_mem {β : Type} {l : List (Nat × β)} {k : Nat} {v : β}
    (h : lookupA l k = some v) : (k, v) ∈ l := by
  induction l with
  | nil => simp [lookupA] at h
  | cons hd t ih =>
    obtain ⟨k₀, v₀⟩ := hd
    by_cases hk : k = k₀
    · subst hk
      simp [lookupA] at h
      simp [h]
    · simp [lookupA, hk] at h
      exact List.mem_cons_of_mem _ (ih h)

theorem mem_insertA {β : Type} {l : List (Nat × β)} {k : Nat} {v : β} {kv : Nat × β}
    (h : kv ∈ insertA l k v) : kv = (k, v) ∨ kv ∈ l := by
  induction l with
  | nil => simp [insertA] at h; simp [h]
  | cons hd t ih =>
    obtain ⟨k₀, v₀⟩ := hd
    by_cases hk : k = k₀
    · simp [insertA, hk] at h
      rcases h with h | h
      · subst hk; simp [h]
      · simp [h]
    · simp [insertA, hk] at h
      rcases h with h | h
      · simp [h]
      · rcases ih h with h' | h'
        · simp [h']
        · simp [h']

theorem lookupA_insertA_isSome {β : Type} {l : List (Nat × β)} {k' : Nat}
    (k : Nat) (v : β) (h : (lookupA l k').isSome = true) :
    (lookupA (insertA l k v) k').isSome = true := by
  by_cases hk : k' = k
  · subst hk; simp [lookupA_insertA_self]
  · rw [lookupA_insertA_ne l k v k' hk]; exact h

theorem insertA_of_lookupA_none {β : Type} {l : List (Nat × β)} {k : Nat} (v : β)
    (h : lookupA l k = none) : insertA l k v = l ++ [(k, v)] := by
  induction l with
  | nil => simp [insertA]
  | cons hd t ih =>
    obtain ⟨k₀, v₀⟩ := hd
    by_cases hk : k = k₀
    · subst hk; simp [lookupA] at h
    · simp [lookupA, hk] at h
      simp [insertA, hk, ih h]

theorem length_insertA_some {β : Type} {l : List (Nat × β)} {k : Nat} {old : β} (v : β)
    (h : lookupA l k = some old) : (insertA l k v).length = l.length := by
  induction l with
  | nil => simp [lookupA] at h
  | cons hd t ih =>
    obtain ⟨k₀, v₀⟩ := hd
    by_cases hk : k = k₀
    · simp [insertA, hk]
    · have hk' : ¬ (k = k₀) := hk
      simp [lookupA, hk] at h
      simp [insertA, hk', ih h]

theorem map_fst_insertA_some {β : Type} {l : List (Nat × β)} {k : Nat} {old : β} (v : β)
    (h : lookupA l k = some old) :
    (insertA l k v).map Prod.fst = l.map Prod.fst := by
  induction l with
  | nil => simp [lookupA] at h
  | cons hd t ih =>
    obtain ⟨k₀, v₀⟩ := hd
    by_cases hk : k = k₀
    · subst hk; simp [insertA]
    · simp [lookupA, hk] at h
      simp [insertA, hk, ih h]

theorem sumVotes_insertA_none {l : List (Nat × VoterState)} {k : Nat} (v : VoterState)
    (id : Nat) (h : lookupA l k = none) :
    sumVotes (insertA l k v) id = sumVotes l id + contrib v id := by
  rw [insertA_of_lookupA_none v h]
  simp [sumVotes]

theorem sumVotes_insertA_some {l : List (Nat × VoterState)} {k : Nat} {old : VoterState}
    (v : VoterState) (id : Nat) (h : lookupA l k = some old) :
    sumVotes (insertA l k v) id + contrib old id = sumVotes l id + contrib v id := by
  induction l with
  | nil => simp [lookupA] at h
  | cons hd t ih =>
    obtain ⟨k₀, v₀⟩ := hd
    by_cases hk : k = k₀
    · subst hk
      simp [lookupA] at h
      subst h
      simp [insertA, sumVotes]
      omega
    · simp [lookupA, hk] at h
      simp [insertA, hk, sumVotes] at ih ⊢
      have := ih h
      omega

theorem contrib_le_sumVotes {l : List (Nat × VoterState)} {k : Nat} {vs : VoterState}
    (id : Nat) (h : lookupA l k = some vs) : contrib vs id ≤ sumVotes l id := by
  induction l with
  | nil => simp [lookupA] at h
  | cons hd t ih =>
    obtain ⟨k₀, v₀⟩ := hd
    by_cases hk : k = k₀
    · simp [lookupA, hk] at h
      subst h
      simp [sumVotes]
    · simp [lookupA, hk] at h
      have := ih h
      simp [sumVotes] at this ⊢
      omega

theorem undoPrevVote_not_voted {proposals : List (Nat × Proposal)} {vs : VoterState}
    (h : vs.voted = false) : undoPrevVote proposals vs = Except.ok proposals := by
  simp [undoPrevVote, h]

theorem undoPrevVote_voted {proposals : List (Nat × Proposal)} {vs : VoterState}
    {q : Proposal} (h : vs.voted = true) (hq : lookupA proposals vs.vote = some q) :
    undoPrevVote proposals vs =
      Except.ok (insertA proposals vs.vote
        { q with vote_count := q.vote_count - vs.weight }) := by
  simp [undoPrevVote, h, hq]

theorem contrib_voted_self {vs : VoterState} (h : vs.voted = true) :
    contrib vs vs.vote = vs.weight := by
  simp [contrib, h]

theorem contrib_ne {vs : VoterState} {id : Nat} (h : vs.vote ≠ id) :
    contrib vs id = 0 := by
  simp [contrib, h]

theorem contrib_not_voted {vs : VoterState} {id : Nat} (h : vs.voted = false) :
    contrib vs id = 0 := by
  simp [contrib, h]

theorem State_vote_props {s s' : State} {a pid : Nat}
    (hc : Conserved s) (ht : TargetsExist s)
    (hok : State.vote s a pid = Except.ok s') :
    Conserved s' ∧ TargetsExist s' ∧ s'.status = s.status ∧
      s'.winning_proposal_id = s.winning_proposal_id ∧
      s'.proposals.map Prod.fst = s.proposals.map Prod.fst := by
  simp only [State.vote] at hok
  by_cases hvoted : ((lookupA s.voters a).getD ⟨0, false, 0⟩).voted = true
  · -- the caller had already voted: the undo branch runs
    have hv : lookupA s.voters a = some ((lookupA s.voters a).getD ⟨0, false, 0⟩) := by
      cases hlv : lookupA s.voters a with
      | none => rw [hlv] at hvoted; simp at hvoted
      | some v₀ => rfl
    set vs : VoterState := (lookupA s.voters a).getD ⟨0, false, 0⟩ with hvs
    have hsome : (lookupA s.proposals vs.vote).isSome = true :=
      ht _ (lookupA_mem hv) hvoted
    obtain ⟨q, hq⟩ := Option.isSome_iff_exists.mp hsome
    rw [undoPrevVote_voted hvoted hq] at hok
    set q' : Proposal := { q with vote_count := q.vote_count - vs.weight } with hq'
    set P1 : List (Nat × Proposal) := insertA s.proposals vs.vote q' with hP1
    dsimp only [] at hok
    cases hp1 : lookupA P1 pid with
    | none => rw [hp1] at hok; exact absurd hok (by simp)
    | some p1 =>
      rw [hp1] at hok
      simp only [Except.ok.injEq] at hok
      subst hok
      have hw : vs.weight ≤ q.vote_count := by
        have h1 : contrib vs vs.vote ≤ sumVotes s.voters vs.vote :=
          contrib_le_sumVotes vs.vote hv
        rw [contrib_voted_self hvoted] at h1
        rw [hc vs.vote q hq]
        exact h1
      have hqc : q.vote_count = sumVotes s.voters vs.vote := hc vs.vote q hq
      have hq'c : q'.vote_count = q.vote_count - vs.weight := rfl
      have hsum : ∀ id, sumVotes (insertA s.voters a ⟨1, true, pid⟩) id + contrib vs id =
          sumVotes s.voters id + contrib ⟨1, true, pid⟩ id :=
        fun id => sumVotes_insertA_some _ id hv
      refine ⟨?_, ?_, rfl, rfl, ?_⟩
      · intro id p' hp'
        dsimp only [] at hp' ⊢
        by_cases hid : id = pid
        · subst hid
          rw [lookupA_insertA_self] at hp'
          simp only [Option.some.injEq] at hp'
          subst hp'
          dsimp only []
          by_cases htgt : id = vs.vote
          · -- re-vote for the same proposal
            have hl1 : lookupA P1 id = some q' := by
              rw [hP1, htgt, lookupA_insertA_self]
            rw [hl1] at hp1
            simp only [Option.some.injEq] at hp1
            subst hp1
            have h2 := hsum id
            rw [htgt, contrib_voted_self hvoted] at h2
            rw [show contrib (⟨1, true, vs.vote⟩ : VoterState) vs.vote = 1 by
              simp [contrib]] at h2
            show q'.vote_count + 1 = sumVotes (insertA s.voters a ⟨1, true, id⟩) id
            rw [htgt]
            omega
          · -- switch from a different proposal
            have hl1 : lookupA P1 id = lookupA s.proposals id := by
              rw [hP1]; exact lookupA_insertA_ne _ _ _ _ htgt
            rw [hl1] at hp1
            have h0 := hc id p1 hp1
            have h2 := hsum id
            rw [contrib_ne (show vs.vote ≠ id from fun h => htgt h.symm)] at h2
            rw [show contrib (⟨1, true, id⟩ : VoterState) id = 1 by simp [contrib]] at h2
            show p1.vote_count + 1 = sumVotes (insertA s.voters a ⟨1, true, id⟩) id
            omega
        · rw [lookupA_insertA_ne _ _ _ _ hid] at hp'
          by_cases htgt : id = vs.vote
          · rw [htgt, hP1, lookupA_insertA_self] at hp'
            simp only [Option.some.injEq] at hp'
            subst hp'
            have h2 := hsum id
            rw [htgt, contrib_voted_self hvoted] at h2
            rw [show contrib (⟨1, true, pid⟩ : VoterState) vs.vote = 0 from
              contrib_ne (fun h => hid (htgt.trans h.symm))] at h2
            rw [htgt]
            omega
          · rw [hP1, lookupA_insertA_ne _ _ _ _ (fun h => htgt h)] at hp'
            have h0 := hc id p' hp'
            have h2 := hsum id
            rw [contrib_ne (show vs.vote ≠ id from fun h => htgt h.symm)] at h2
            rw [show contrib (⟨1, true, pid⟩ : VoterState) id = 0 from
              contrib_ne (fun h => hid h.symm)] at h2
            omega
      · intro kv hkv hkvoted
        dsimp only [] at hkv
        rcases mem_insertA hkv with h | h
        · subst h
          dsimp only []
          exact lookupA_insertA_isSome _ _ (by rw [hp1]; rfl)
        · have h1 := ht kv h hkvoted
          dsimp only []
          exact lookupA_insertA_isSome _ _ (lookupA_insertA_isSome _ _ h1)
      · dsimp only []
        rw [map_fst_insertA_some _ hp1, hP1, map_fst_insertA_some _ hq]
  · -- fresh or cancelled record: no undo
    have hnv : ((lookupA s.voters a).getD ⟨0, false, 0⟩).voted = false :=
      Bool.not_eq_true _ ▸ eq_false_of_ne_true hvoted
    rw [undoPrevVote_not_voted hnv] at hok
    dsimp only [] at hok
    cases hp0 : lookupA s.proposals pid with
    | none => rw [hp0] at hok; exact absurd hok (by simp)
    | some p0 =>
      rw [hp0] at hok
      simp only [Except.ok.injEq] at hok
      subst hok
      have hsum : ∀ id, sumVotes (insertA s.voters a ⟨1, true, pid⟩) id =
          sumVotes s.voters id + contrib ⟨1, true, pid⟩ id := by
        intro id
        cases hlv : lookupA s.voters a with
        | none => exact sumVotes_insertA_none _ id hlv
        | some v₀ =>
          have h1 := sumVotes_insertA_some (⟨1, true, pid⟩ : VoterState) id hlv
          have h2 : contrib v₀ id = 0 := by
            apply contrib_not_voted
            rw [hlv] at hnv
            exact hnv
          omega
      refine ⟨?_, ?_, rfl, rfl, ?_⟩
      · intro id p' hp'
        dsimp only [] at hp' ⊢
        by_cases hid : id = pid
        · subst hid
          rw [lookupA_insertA_self] at hp'
          simp only [Option.some.injEq] at hp'
          subst hp'
          dsimp only []
          have h2 := hsum id
          rw [show contrib (⟨1, true, id⟩ : VoterState) id = 1 by simp [contrib]] at h2
          have h0 := hc id p0 hp0
          show p0.vote_count + 1 = sumVotes (insertA s.voters a ⟨1, true, id⟩) id
          omega
        · rw [lookupA_insertA_ne _ _ _ _ hid] at hp'
          have h0 := hc id p' hp'
          have h2 := hsum id
          rw [show contrib (⟨1, true, pid⟩ : VoterState) id = 0 from
            contrib_ne (fun h => hid h.symm)] at h2
          omega
      · intro kv hkv hkvoted
        dsimp only [] at hkv
        rcases mem_insertA hkv with h | h
        · subst h
          dsimp only []
          exact lookupA_insertA_isSome _ _ (by rw [hp0]; rfl)
        · dsimp only []
          exact lookupA_insertA_isSome _ _ (ht kv h hkvoted)
      · dsimp only []
        rw [map_fst_insertA_some _ hp0]

theorem State_cancel_props {s s' : State} {a : Nat}
    (hc : Conserved s) (ht : TargetsExist s)
    (hok : State.cancel_vote s a = Except.ok s') :
    Conserved s' ∧ TargetsExist s' ∧ s'.status = s.status ∧
      s'.winning_proposal_id = s.winning_proposal_id ∧
      s'.proposals.map Prod.fst = s.proposals.map Prod.fst := by
  simp only [State.cancel_vote] at hok
  cases hv : lookupA s.voters a with
  | none => rw [hv] at hok; exact absurd hok (by simp)
  | some vs =>
    rw [hv] at hok
    dsimp only [] at hok
    by_cases hvoted : vs.voted = true
    · rw [if_pos hvoted] at hok
      cases hq : lookupA s.proposals vs.vote with
      | none => rw [hq] at hok; exact absurd hok (by simp)
      | some q =>
        rw [hq] at hok
        simp only [Except.ok.injEq] at hok
        subst hok
        have hw : vs.weight ≤ q.vote_count := by
          have h1 : contrib vs vs.vote ≤ sumVotes s.voters vs.vote :=
            contrib_le_sumVotes vs.vote hv
          rw [contrib_voted_self hvoted] at h1
          rw [hc vs.vote q hq]
          exact h1
        have hqc : q.vote_count = sumVotes s.voters vs.vote := hc vs.vote q hq
        have hsum : ∀ id,
            sumVotes (insertA s.voters a { vs with voted := false, vote := 0 }) id +
              contrib vs id =
            sumVotes s.voters id + contrib { vs with voted := false, vote := 0 } id :=
          fun id => sumVotes_insertA_some _ id hv
        have hzero : ∀ id, contrib { vs with voted := false, vote := 0 } id = 0 :=
          fun id => contrib_not_voted rfl
        refine ⟨?_, ?_, rfl, rfl, ?_⟩
        · intro id p' hp'
          dsimp only [] at hp' ⊢
          have h2 := hsum id
          rw [hzero id] at h2
          by_cases htgt : id = vs.vote
          · rw [htgt, lookupA_insertA_self] at hp'
            simp only [Option.some.injEq] at hp'
            subst hp'
            rw [htgt] at h2 ⊢
            rw [contrib_voted_self hvoted] at h2
            show q.vote_count - vs.weight =
              sumVotes (insertA s.voters a { vs with voted := false, vote := 0 }) vs.vote
            omega
          · rw [lookupA_insertA_ne _ _ _ _ (fun h => htgt h)] at hp'
            have h0 := hc id p' hp'
            rw [contrib_ne (show vs.vote ≠ id from fun h => htgt h.symm)] at h2
            omega
        · intro kv hkv hkvoted
          dsimp only [] at hkv
          rcases mem_insertA hkv with h | h
          · subst h
            simp at hkvoted
          · exact lookupA_insertA_isSome _ _ (ht kv h hkvoted)
        · dsimp only []
          rw [map_fst_insertA_some _ hq]
    · rw [if_neg hvoted] at hok
      exact absurd hok (by simp)

theorem buildProposalsAux_count_zero {names : List String} {i : Nat}
    {m : List (Nat × Proposal)} (hm : ∀ kv ∈ m, kv.2.vote_count = 0) :
    ∀ kv ∈ buildProposalsAux i names m, kv.2.vote_count = 0 := by
  induction names generalizing i m with
  | nil => exact hm
  | cons name rest ih =>
    intro kv hkv
    refine ih ?_ kv hkv
    intro kv' hkv'
    rcases mem_insertA hkv' with h | h
    · subst h; rfl
    · exact hm kv' h

theorem Inv_empty (title description : String) (names : List String) (expiry : Nat) :
    Inv (State.empty title description names expiry) := by
  refine ⟨?_, ?_, fun _ => rfl⟩
  · intro id p hp
    have h0 : p.vote_count = 0 := by
      have hmem := lookupA_mem hp
      exact buildProposalsAux_count_zero (by simp) (id, p) hmem
    rw [h0]
    rfl
  · intro kv hkv
    simp [State.empty] at hkv

theorem contract_vote_props {sender : Address} {t pid : Nat} {s s' : State}
    (h : Inv s) (hok : contract_vote sender t pid s = Except.ok s') :
    Inv s' ∧ s'.status = s.status ∧
      s'.winning_proposal_id = s.winning_proposal_id ∧
      s'.proposals.map Prod.fst = s.proposals.map Prod.fst := by
  obtain ⟨hc, ht, hwin⟩ := h
  cases sender with
  | Contract c => exact absurd hok (by simp [contract_vote])
  | Account a =>
    simp only [contract_vote] at hok
    cases hp : lookupA s.proposals pid with
    | none => rw [hp] at hok; exact absurd hok (by simp)
    | some p0 =>
      rw [hp] at hok
      dsimp only [] at hok
      by_cases hst : s.status = Status.Finished
      · rw [if_pos hst] at hok; exact absurd hok (by simp)
      · rw [if_neg hst] at hok
        by_cases hexp : t ≤ s.expiry
        · rw [if_pos hexp] at hok
          obtain ⟨hc', ht', hst', hwin', hkeys'⟩ := State_vote_props hc ht hok
          exact ⟨⟨hc', ht', fun hs => by rw [hwin']; exact hwin (hst' ▸ hs)⟩,
            hst', hwin', hkeys'⟩
        · rw [if_neg hexp] at hok; exact absurd hok (by simp)

theorem cancel_vote_props {sender : Address} {t : Nat} {s s' : State}
    (h : Inv s) (hok : cancel_vote sender t s = Except.ok s') :
    Inv s' ∧ s'.status = s.status ∧
      s'.winning_proposal_id = s.winning_proposal_id ∧
      s'.proposals.map Prod.fst = s.proposals.map Prod.fst := by
  obtain ⟨hc, ht, hwin⟩ := h
  cases sender with
  | Contract c => exact absurd hok (by simp [cancel_vote])
  | Account a =>
    simp only [cancel_vote] at hok
    by_cases hst : s.status = Status.Finished
    · rw [if_pos hst] at hok; exact absurd hok (by simp)
    · rw [if_neg hst] at hok
      by_cases hexp : t ≤ s.expiry
      · rw [if_pos hexp] at hok
        obtain ⟨hc', ht', hst', hwin', hkeys'⟩ := State_cancel_props hc ht hok
        exact ⟨⟨hc', ht', fun hs => by rw [hwin']; exact hwin (hst' ▸ hs)⟩,
          hst', hwin', hkeys'⟩
      · rw [if_neg hexp] at hok; exact absurd hok (by simp)

theorem winning_proposal_props {s s' : State}
    (h : Inv s) (hok : contract_winning_proposal s = Except.ok s') :
    Inv s' ∧ s'.status = Status.Finished ∧
      s'.voters = s.voters ∧ s'.proposals = s.proposals := by
  obtain ⟨hc, ht, hwin⟩ := h
  simp only [contract_winning_proposal] at hok
  by_cases hst : s.status = Status.Finished
  · rw [if_pos hst] at hok; exact absurd hok (by simp)
  · rw [if_neg hst] at hok
    simp only [Except.ok.injEq] at hok
    subst hok
    exact ⟨⟨hc, ht, fun hs => absurd hs (by simp [tallyResult])⟩, rfl, rfl, rfl⟩

theorem reachable_inv {s : State} (h : Reachable s) : Inv s := by
  induction h with
  | init title description names expiry => exact Inv_empty title description names expiry
  | vote _ hok ih => exact (contract_vote_props ih hok).1
  | cancel _ hok ih => exact (cancel_vote_props ih hok).1
  | tally _ hok ih => exact (winning_proposal_props ih hok).1

theorem tallyStep_fst (acc : Nat × List Nat) (kv : Nat × Proposal) :
    (tallyStep acc kv).1 = max acc.1 kv.2.vote_count := by
  simp only [tallyStep]
  rcases Nat.lt_trichotomy acc.1 kv.2.vote_count with h | h | h
  · rw [if_pos h]; omega
  · rw [if_neg (by omega), if_pos h]; omega
  · rw [if_neg (by omega), if_neg (by omega)]; omega

theorem foldl_tallyStep_fst (l : List (Nat × Proposal)) (acc : Nat × List Nat) :
    (l.foldl tallyStep acc).1 = maxFold l acc.1 := by
  induction l generalizing acc with
  | nil => rfl
  | cons kv t ih =>
    rw [List.foldl_cons, ih, tallyStep_fst]
    rfl

theorem le_maxFold (l : List (Nat × Proposal)) (m : Nat) : m ≤ maxFold l m := by
  induction l generalizing m with
  | nil => exact Nat.le_refl m
  | cons kv t ih =>
    calc m ≤ max m kv.2.vote_count := Nat.le_max_left _ _
    _ ≤ maxFold t (max m kv.2.vote_count) := ih _

theorem count_le_maxFold {l : List (Nat × Proposal)} {kv : Nat × Proposal}
    (h : kv ∈ l) (m : Nat) : kv.2.vote_count ≤ maxFold l m := by
  induction l generalizing m with
  | nil => simp at h
  | cons hd t ih =>
    rcases List.mem_cons.mp h with h' | h'
    · subst h'
      calc kv.2.vote_count ≤ max m kv.2.vote_count := Nat.le_max_right _ _
      _ ≤ maxFold t _ := le_maxFold _ _
    · exact ih h' _

theorem maxFold_le {l : List (Nat × Proposal)} {m b : Nat}
    (hm : m ≤ b) (hl : ∀ kv ∈ l, kv.2.vote_count ≤ b) : maxFold l m ≤ b := by
  induction l generalizing m with
  | nil => exact hm
  | cons hd t ih =>
    refine ih (Nat.max_le.mpr ⟨hm, hl hd (by simp)⟩) ?_
    intro kv hkv
    exact hl kv (List.mem_cons_of_mem _ hkv)

theorem mem_insertSet {l : List Nat} {x id : Nat} :
    id ∈ insertSet l x ↔ id ∈ l ∨ id = x := by
  by_cases h : x ∈ l
  · simp only [insertSet, if_pos h]
    constructor
    · exact Or.inl
    · rintro (h' | rfl)
      · exact h'
      · exact h
  · simp [insertSet, if_neg h]

/-- Characterization of the winning-id set computed by the tally fold: an id is in
the final set iff it was in the starting set and no scanned count exceeded the
starting maximum, or some scanned entry with that id attains the overall maximum. -/
theorem mem_foldl_tallyStep (l : List (Nat × Proposal)) (acc : Nat × List Nat) (id : Nat) :
    id ∈ (l.foldl tallyStep acc).2 ↔
      (id ∈ acc.2 ∧ acc.1 = maxFold l acc.1) ∨
        (∃ p, (id, p) ∈ l ∧ p.vote_count = maxFold l acc.1) := by
  induction l generalizing acc with
  | nil => simp [maxFold]
  | cons kv t ih =>
    have hM : maxFold (kv :: t) acc.1 = maxFold t (max acc.1 kv.2.vote_count) := rfl
    rcases Nat.lt_trichotomy acc.1 kv.2.vote_count with h | h | h
    · -- strictly larger count: the set is reset to the current id
      have hstep : tallyStep acc kv = (kv.2.vote_count, insertSet [] kv.1) := by
        simp only [tallyStep, if_pos h]
      have hmax : max acc.1 kv.2.vote_count = kv.2.vote_count := by omega
      rw [List.foldl_cons, ih, hstep, hM, hmax]
      dsimp only []
      have hlt : acc.1 < maxFold t kv.2.vote_count := by
        have := le_maxFold t kv.2.vote_count
        omega
      constructor
      · rintro (⟨hin, heq⟩ | ⟨p, hp, hpc⟩)
        · simp only [insertSet, List.not_mem_nil, if_false, List.nil_append,
            List.mem_singleton] at hin
          subst hin
          exact Or.inr ⟨kv.2, by simp, by omega⟩
        · exact Or.inr ⟨p, List.mem_cons_of_mem _ hp, hpc⟩
      · rintro (⟨hin, heq⟩ | ⟨p, hp, hpc⟩)
        · exact absurd heq (Nat.ne_of_lt hlt)
        · rcases List.mem_cons.mp hp with h' | h'
          · have hid : id = kv.1 := congrArg Prod.fst h'
            have hpp : p = kv.2 := congrArg Prod.snd h'
            subst hid
            refine Or.inl ⟨by simp [insertSet], ?_⟩
            rw [hpp] at hpc
            exact hpc
          · exact Or.inr ⟨p, h', hpc⟩
    · -- equal count: the current id is inserted without clearing
      have hstep : tallyStep acc kv = (acc.1, insertSet acc.2 kv.1) := by
        simp only [tallyStep, if_neg (by omega : ¬ acc.1 < kv.2.vote_count), if_pos h]
      have hmax : max acc.1 kv.2.vote_count = acc.1 := by omega
      rw [List.foldl_cons, ih, hstep, hM, hmax]
      dsimp only []
      constructor
      · rintro (⟨hin, heq⟩ | ⟨p, hp, hpc⟩)
        · rcases mem_insertSet.mp hin with h' | h'
          · exact Or.inl ⟨h', heq⟩
          · subst h'
            exact Or.inr ⟨kv.2, by simp, by omega⟩
        · exact Or.inr ⟨p, List.mem_cons_of_mem _ hp, hpc⟩
      · rintro (⟨hin, heq⟩ | ⟨p, hp, hpc⟩)
        · exact Or.inl ⟨mem_insertSet.mpr (Or.inl hin), heq⟩
        · rcases List.mem_cons.mp hp with h' | h'
          · have hid : id = kv.1 := congrArg Prod.fst h'
            have hpp : p = kv.2 := congrArg Prod.snd h'
            rw [hpp] at hpc
            exact Or.inl ⟨mem_insertSet.mpr (Or.inr hid), by omega⟩
          · exact Or.inr ⟨p, h', hpc⟩
    · -- strictly smaller count: nothing changes
      have hstep : tallyStep acc kv = acc := by
        simp only [tallyStep, if_neg (by omega : ¬ acc.1 < kv.2.vote_count),
          if_neg (by omega : ¬ acc.1 = kv.2.vote_count)]
      have hmax : max acc.1 kv.2.vote_count = acc.1 := by omega
      rw [List.foldl_cons, ih, hstep, hM, hmax]
      have hge : acc.1 ≤ maxFold t acc.1 := le_maxFold t acc.1
      constructor
      · rintro (⟨hin, heq⟩ | ⟨p, hp, hpc⟩)
        · exact Or.inl ⟨hin, heq⟩
        · exact Or.inr ⟨p, List.mem_cons_of_mem _ hp, hpc⟩
      · rintro (⟨hin, heq⟩ | ⟨p, hp, hpc⟩)
        · exact Or.inl ⟨hin, heq⟩
        · rcases List.mem_cons.mp hp with h' | h'
          · have hpp : p = kv.2 := congrArg Prod.snd h'
            exact absurd hpc (by rw [hpp]; omega)
          · exact Or.inr ⟨p, h', hpc⟩

/-- The tally fold started from count 0 and an empty set computes exactly the ids
of the proposals whose count is maximal among all scanned proposals. -/
theorem mem_tally_iff_argmax (l : List (Nat × Proposal)) (id : Nat) :
    id ∈ (l.foldl tallyStep (0, ([] : List Nat))).2 ↔
      ∃ p, (id, p) ∈ l ∧ ∀ kv ∈ l, kv.2.vote_count ≤ p.vote_count := by
  rw [mem_foldl_tallyStep]
  dsimp only []
  constructor
  · rintro (⟨hin, _⟩ | ⟨p, hp, hpc⟩)
    · simp at hin
    · refine ⟨p, hp, ?_⟩
      intro kv hkv
      rw [hpc]
      exact count_le_maxFold hkv 0
  · rintro ⟨p, hp, hmax⟩
    refine Or.inr ⟨p, hp, ?_⟩
    have h1 : p.vote_count ≤ maxFold l 0 := count_le_maxFold hp 0
    have h2 : maxFold l 0 ≤ p.vote_count := maxFold_le (Nat.zero_le _) hmax
    omega

theorem lookupA_none_of_keys_lt {β : Type} {m : List (Nat × β)} {i : Nat}
    (h : ∀ kv ∈ m, kv.1 < i) : lookupA m i = none := by
  induction m with
  | nil => rfl
  | cons hd t ih =>
    have h0 : hd.1 < i := h hd (by simp)
    obtain ⟨k, v⟩ := hd
    simp only [lookupA, if_neg (by simp at h0; omega : ¬ i = k)]
    exact ih fun kv hkv => h kv (List.mem_cons_of_mem _ hkv)

theorem buildProposalsAux_dense :
    ∀ (names : List String) (i : Nat) (m : List (Nat × Proposal)),
      i + names.length ≤ 256 → (∀ kv ∈ m, kv.1 < i) →
      buildProposalsAux i names m = m ++ denseFrom i names := by
  intro names
  induction names with
  | nil => intro i m _ _; simp [buildProposalsAux, denseFrom]
  | cons name rest ih =>
    intro i m hbound hkeys
    have hi : i % 256 = i := Nat.mod_eq_of_lt (by simp at hbound; omega)
    have hnone : lookupA m i = none := lookupA_none_of_keys_lt hkeys
    simp only [buildProposalsAux, hi, insertA_of_lookupA_none _ hnone]
    have hk2 : ∀ kv ∈ m ++ [(i, (⟨name, 0⟩ : Proposal))], kv.1 < i + 1 := by
      intro kv hkv
      rcases List.mem_append.mp hkv with h | h
      · exact Nat.lt_succ_of_lt (hkeys kv h)
      · simp at h
        simp [h]
    have hb2 : i + 1 + rest.length ≤ 256 := by simp at hbound; omega
    rw [ih (i + 1) (m ++ [(i, (⟨name, 0⟩ : Proposal))]) hb2 hk2]
    simp [denseFrom]

theorem buildProposalsAux_append :
    ∀ (xs ys : List String) (i : Nat) (m : List (Nat × Proposal)),
      buildProposalsAux i (xs ++ ys) m =
        buildProposalsAux (i + xs.length) ys (buildProposalsAux i xs m) := by
  intro xs
  induction xs with
  | nil => intro ys i m; simp [buildProposalsAux]
  | cons x rest ih =>
    intro ys i m
    show buildProposalsAux (i + 1) (rest ++ ys) (insertA m (i % 256) ⟨x, 0⟩) =
        buildProposalsAux (i + (x :: rest).length) ys
          (buildProposalsAux (i + 1) rest (insertA m (i % 256) ⟨x, 0⟩))
    rw [ih ys (i + 1) (insertA m (i % 256) ⟨x, 0⟩)]
    have h1 : i + 1 + rest.length = i + (x :: rest).length := by
      simp only [List.length_cons]
      omega
    rw [h1]

theorem lookupA_denseFrom :
    ∀ (names : List String) (i j : Nat), j < names.length →
      lookupA (denseFrom i names) (i + j) = some ⟨names.getD j "", 0⟩ := by
  intro names
  induction names with
  | nil => intro i j h; simp at h
  | cons name rest ih =>
    intro i j h
    cases j with
    | zero => simp [denseFrom, lookupA]
    | succ j' =>
      have hne : ¬ i + (j' + 1) = i := by omega
      simp only [denseFrom, lookupA, if_neg hne]
      have := ih (i + 1) j' (by simp at h; omega)
      rw [show i + 1 + j' = i + (j' + 1) by omega] at this
      rw [this]
      rfl

theorem length_denseFrom : ∀ (i : Nat) (names : List String),
    (denseFrom i names).length = names.length := by
  intro i names
  induction names generalizing i with
  | nil => rfl
  | cons name rest ih => simp [denseFrom, ih]

theorem undoPrevVote_ok_keys {proposals proposals1 : List (Nat × Proposal)}
    {vs : VoterState} (hok : undoPrevVote proposals vs = Except.ok proposals1) :
    proposals1.map Prod.fst = proposals.map Prod.fst := by
  by_cases hvoted : vs.voted = true
  · simp only [undoPrevVote, if_pos hvoted] at hok
    cases hq : lookupA proposals vs.vote with
    | none => rw [hq] at hok; exact absurd hok (by simp)
    | some q =>
      rw [hq] at hok
      simp only [Except.ok.injEq] at hok
      rw [← hok]
      exact map_fst_insertA_some _ hq
  · simp only [undoPrevVote, if_neg hvoted] at hok
    simp only [Except.ok.injEq] at hok
    rw [hok]

theorem State_vote_ok_frame {s s' : State} {a pid : Nat}
    (hok : State.vote s a pid = Except.ok s') :
    s'.status = s.status ∧ s'.winning_proposal_id = s.winning_proposal_id ∧
      s'.proposals.map Prod.fst = s.proposals.map Prod.fst := by
  simp only [State.vote] at hok
  cases hu : undoPrevVote s.proposals ((lookupA s.voters a).getD ⟨0, false, 0⟩) with
  | error e => rw [hu] at hok; exact absurd hok (by simp)
  | ok proposals1 =>
    rw [hu] at hok
    dsimp only [] at hok
    cases hp1 : lookupA proposals1 pid with
    | none => rw [hp1] at hok; exact absurd hok (by simp)
    | some p1 =>
      rw [hp1] at hok
      simp only [Except.ok.injEq] at hok
      subst hok
      refine ⟨rfl, rfl, ?_⟩
      dsimp only []
      rw [map_fst_insertA_some _ hp1]
      exact undoPrevVote_ok_keys hu

theorem State_cancel_ok_frame {s s' : State} {a : Nat}
    (hok : State.cancel_vote s a = Except.ok s') :
    s'.status = s.status ∧ s'.winning_proposal_id = s.winning_proposal_id ∧
      s'.proposals.map Prod.fst = s.proposals.map Prod.fst := by
  simp only [State.cancel_vote] at hok
  cases hv : lookupA s.voters a with
  | none => rw [hv] at hok; exact absurd hok (by simp)
  | some vs =>
    rw [hv] at hok
    dsimp only [] at hok
    by_cases hvoted : vs.voted = true
    · rw [if_pos hvoted] at hok
      cases hq : lookupA s.proposals vs.vote with
      | none => rw [hq] at hok; exact absurd hok (by simp)
      | some q =>
        rw [hq] at hok
        simp only [Except.ok.injEq] at hok
        subst hok
        exact ⟨rfl, rfl, map_fst_insertA_some _ hq⟩
    · rw [if_neg hvoted] at hok
      exact absurd hok (by simp)

theorem contract_vote_ok_frame {sender : Address} {t pid : Nat} {s s' : State}
    (hok : contract_vote sender t pid s = Except.ok s') :
    s'.status = s.status ∧ s'.winning_proposal_id = s.winning_proposal_id ∧
      s'.proposals.map Prod.fst = s.proposals.map Prod.fst := by
  cases sender with
  | Contract c => exact absurd hok (by simp [contract_vote])
  | Account a =>
    simp only [contract_vote] at hok
    cases hp : lookupA s.proposals pid with
    | none => rw [hp] at hok; exact absurd hok (by simp)
    | some p0 =>
      rw [hp] at hok
      dsimp only [] at hok
      by_cases hst : s.status = Status.Finished
      · rw [if_pos hst] at hok; exact absurd hok (by simp)
      · rw [if_neg hst] at hok
        by_cases hexp : t ≤ s.expiry
        · rw [if_pos hexp] at hok
          exact State_vote_ok_frame hok
        · rw [if_neg hexp] at hok; exact absurd hok (by simp)

theorem cancel_vote_ok_frame {sender : Address} {t : Nat} {s s' : State}
    (hok : cancel_vote sender t s = Except.ok s') :
    s'.status = s.status ∧ s'.winning_proposal_id = s.winning_proposal_id ∧
      s'.proposals.map Prod.fst = s.proposals.map Prod.fst := by
  cases sender with
  | Contract c => exact absurd hok (by simp [cancel_vote])
  | Account a =>
    simp only [cancel_vote] at hok
    by_cases hst : s.status = Status.Finished
    · rw [if_pos hst] at hok; exact absurd hok (by simp)
    · rw [if_neg hst] at hok
      by_cases hexp : t ≤ s.expiry
      · rw [if_pos hexp] at hok
        exact State_cancel_ok_frame hok
      · rw [if_neg hexp] at hok; exact absurd hok (by simp)

theorem winning_proposal_ok_shape {s s' : State}
    (hok : contract_winning_proposal s = Except.ok s') : s' = tallyResult s := by
  simp only [contract_winning_proposal] at hok
  by_cases hst : s.status = Status.Finished
  · rw [if_pos hst] at hok; exact absurd hok (by simp)
  · rw [if_neg hst] at hok
    simp only [Except.ok.injEq] at hok
    exact hok.symm

/-- C1: in every state reachable from initialization via the public operations
(vote, cancelVote, winningProposal), every stored proposal's `vote_count` equals
the sum of `weight` over all voter records with `voted = true` and `vote` equal
to that proposal's id. -/
theorem C1_conservation (s : State) (h : Reachable s) : Conserved s :=
  (reachable_inv h).1

/-- Witness for C1 at the concrete reachable state where account 7 has voted for
proposal 0 of the single-proposal agenda. -/
theorem C1_conservation_witness : Conserved exVoted :=
  C1_conservation exVoted
    (Reachable.vote (Reachable.init "t" "d" ["a"] 3)
      (show contract_vote (Address.Account 7) 0 0 (State.empty "t" "d" ["a"] 3) =
        Except.ok exVoted by decide))

/-- C2: on every reachable state with status InProcess, `winningProposal` succeeds
and leaves the winning set equal to exactly the ids of the proposals whose count is
maximal over all stored proposals; in particular counts [3, 5, 5, 2] yield the two
ids with count 5 and all-zero counts [0, 0, 0] yield all three ids. -/
theorem C2_tally_argmax :
    (∀ s : State, Reachable s → s.status = Status.InProcess →
      contract_winning_proposal s = Except.ok (tallyResult s) ∧
      (∀ id, id ∈ (tallyResult s).winning_proposal_id ↔
        ∃ p, (id, p) ∈ s.proposals ∧
          ∀ kv ∈ s.proposals, kv.2.vote_count ≤ p.vote_count)) ∧
    (tallyResult exProps3552).winning_proposal_id = [1, 2] ∧
    (tallyResult exPropsZero).winning_proposal_id = [0, 1, 2] := by
  refine ⟨?_, by decide, by decide⟩
  intro s hr hst
  have hwin : s.winning_proposal_id = [] := (reachable_inv hr).2.2 hst
  have hne : ¬ s.status = Status.Finished := by rw [hst]; simp
  refine ⟨by simp only [contract_winning_proposal, if_neg hne], ?_⟩
  intro id
  show id ∈ (s.proposals.foldl tallyStep (0, s.winning_proposal_id)).2 ↔ _
  rw [hwin]
  exact mem_tally_iff_argmax s.proposals id

/-- Witness for C2 at the reachable all-zero three-proposal initial state. -/
theorem C2_tally_argmax_witness :
    contract_winning_proposal (State.empty "t" "d" ["a", "b", "c"] 5) =
      Except.ok (tallyResult (State.empty "t" "d" ["a", "b", "c"] 5)) :=
  (C2_tally_argmax.1 _ (Reachable.init "t" "d" ["a", "b", "c"] 5) rfl).1

/-- C3 counterexample: a vote for a nonexistent proposal id sent by a contract
identity fails with ContractSender, not with ProposalIsNotFound as the claim
states, because the sender check runs first. -/
theorem C3_counterexample :
    contract_vote (Address.Contract 0) 0 5 (State.empty "t" "d" ["a"] 10) =
      Except.error ContractError.ContractSender ∧
    contract_vote (Address.Contract 0) 0 5 (State.empty "t" "d" ["a"] 10) ≠
      Except.error ContractError.ProposalIsNotFound :=
  ⟨rfl, by decide⟩

/-- C3 amended: `vote` checks its preconditions in the order (1) sender is a
primary account else ContractSender, (2) the proposal exists else
ProposalIsNotFound, (3) status is InProcess else AlreadyFinished, (4) time is at
most expiry else Expired, and the first failing check determines the error. -/
theorem C3_check_order (sender : Address) (slot_time proposal_id : Nat) (s : State) :
    contract_vote sender slot_time proposal_id s =
      voteCheckedSpec sender slot_time proposal_id s := by
  cases sender with
  | Contract c => rfl
  | Account a =>
    simp only [contract_vote, voteCheckedSpec]
    cases hp : lookupA s.proposals proposal_id with
    | none => simp
    | some p =>
      simp only [Option.isSome_some]
      by_cases hst : s.status = Status.Finished
      · simp [hst]
      · by_cases hexp : slot_time ≤ s.expiry
        · simp [hst, hexp]
        · simp [hst, hexp]

/-- C4 counterexample: a cancel by an account with no voter record after the tally
has run fails with AlreadyFinished, not with VoterIsNotFound as the claim states,
because the status check runs before the record lookup. -/
theorem C4_counterexample :
    cancel_vote (Address.Account 1) 0 exFinished =
      Except.error ContractError.AlreadyFinished ∧
    cancel_vote (Address.Account 1) 0 exFinished ≠
      Except.error ContractError.VoterIsNotFound :=
  ⟨rfl, by decide⟩

/-- C4 amended: `cancelVote` checks its preconditions in the order (1) sender is a
primary account else ContractSender, (2) status is InProcess else AlreadyFinished,
(3) time is at most expiry else Expired, (4) the caller's record exists else
VoterIsNotFound, (5) the record has voted else NotVoted, and the first failing
check determines the error. -/
theorem C4_check_order (sender : Address) (slot_time : Nat) (s : State) :
    cancel_vote sender slot_time s = cancelCheckedSpec sender slot_time s := by
  cases sender with
  | Contract c => rfl
  | Account a =>
    simp only [cancel_vote, cancelCheckedSpec, State.cancel_vote]
    by_cases hst : s.status = Status.Finished
    · simp [hst]
    · by_cases hexp : slot_time ≤ s.expiry
      · simp only [if_neg hst, if_pos hexp, hexp, not_true, if_false]
        cases hv : lookupA s.voters a with
        | none => simp
        | some vs =>
          by_cases hvt : vs.voted = true
          · simp [hvt]
          · simp [hvt, Bool.not_eq_true _ ▸ eq_false_of_ne_true hvt]
      · simp [hst, hexp]

set_option maxRecDepth 4096 in
/-- C5 counterexample: initializing with 257 proposal names does not produce 257
registry entries; the `i as u8` key cast wraps at 256 and the 257th insert
overwrites id 0, leaving 256 entries. -/
theorem C5_counterexample :
    (State.empty "t" "d" (List.replicate 256 "x" ++ ["y"]) 0).proposals.length ≠
      (List.replicate 256 "x" ++ ["y"]).length := by
  have hrep : (List.replicate 256 "x").length = 256 := List.length_replicate 256 "x"
  have hD : buildProposalsAux 0 (List.replicate 256 "x") [] =
      denseFrom 0 (List.replicate 256 "x") := by
    have h1 := buildProposalsAux_dense (List.replicate 256 "x") 0 []
      (by rw [Nat.zero_add, hrep]) (by intro kv hkv; exact absurd hkv (List.not_mem_nil kv))
    rw [List.nil_append] at h1
    exact h1
  have hsplit : buildProposalsAux 0 (List.replicate 256 "x" ++ ["y"]) [] =
      buildProposalsAux 256 ["y"] (denseFrom 0 (List.replicate 256 "x")) := by
    rw [buildProposalsAux_append, hD, hrep, Nat.zero_add]
  have hlook : lookupA (denseFrom 0 (List.replicate 256 "x")) 0 =
      some ⟨(List.replicate 256 "x").getD 0 "", 0⟩ := by
    have h1 := lookupA_denseFrom (List.replicate 256 "x") 0 0 (by rw [hrep]; omega)
    rw [Nat.add_zero] at h1
    exact h1
  have hstep : buildProposalsAux 256 ["y"] (denseFrom 0 (List.replicate 256 "x")) =
      insertA (denseFrom 0 (List.replicate 256 "x")) 0 ⟨"y", 0⟩ := by
    show buildProposalsAux 257 []
        (insertA (denseFrom 0 (List.replicate 256 "x")) (256 % 256) ⟨"y", 0⟩) = _
    rw [show (256 : Nat) % 256 = 0 from rfl]
    rfl
  have hlen : (State.empty "t" "d" (List.replicate 256 "x" ++ ["y"]) 0).proposals.length
      = 256 := by
    show (buildProposalsAux 0 (List.replicate 256 "x" ++ ["y"]) []).length = 256
    rw [hsplit, hstep, length_insertA_some _ hlook, length_denseFrom, hrep]
  rw [hlen, List.length_append, hrep]
  show (256 : Nat) ≠ 256 + 1
  omega

/-- C5 amended: for at most 256 proposal names, initialization builds exactly one
registry entry per name with the dense ids 0..N-1 assigned in list order, id i
carrying the i-th supplied name with vote count 0; and no successful operation
ever adds, removes, or renumbers registry entries afterward. (With more than 256
names the `u8` key cast wraps and later names overwrite earlier ids.) -/
theorem C5_dense_ids :
    (∀ (title description : String) (names : List String) (expiry : Nat),
      names.length ≤ 256 →
      (State.empty title description names expiry).proposals = denseFrom 0 names) ∧
    (∀ (names : List String) (j : Nat), j < names.length →
      lookupA (denseFrom 0 names) j = some ⟨names.getD j "", 0⟩) ∧
    (∀ names : List String, (denseFrom 0 names).length = names.length) ∧
    (∀ (sender : Address) (t pid : Nat) (s s' : State),
      contract_vote sender t pid s = Except.ok s' →
      s'.proposals.map Prod.fst = s.proposals.map Prod.fst) ∧
    (∀ (sender : Address) (t : Nat) (s s' : State),
      cancel_vote sender t s = Except.ok s' →
      s'.proposals.map Prod.fst = s.proposals.map Prod.fst) ∧
    (∀ s s' : State, contract_winning_proposal s = Except.ok s' →
      s'.proposals = s.proposals) := by
  refine ⟨?_, ?_, fun names => length_denseFrom 0 names, ?_, ?_, ?_⟩
  · intro title description names expiry h
    show buildProposalsAux 0 names [] = denseFrom 0 names
    have := buildProposalsAux_dense names 0 [] (by omega) (by simp)
    simpa using this
  · intro names j h
    have := lookupA_denseFrom names 0 j h
    simpa using this
  · intro sender t pid s s' hok
    exact (contract_vote_ok_frame hok).2.2
  · intro sender t s s' hok
    exact (cancel_vote_ok_frame hok).2.2
  · intro s s' hok
    rw [winning_proposal_ok_shape hok]
    rfl

/-- Witness for C5 on a two-name initialization. -/
theorem C5_dense_ids_witness :
    (State.empty "t" "d" ["a", "b"] 0).proposals = denseFrom 0 ["a", "b"] :=
  C5_dense_ids.1 "t" "d" ["a", "b"] 0 (by decide)

/-- C6: `winningProposal` succeeds on a status-InProcess state and sets the status
to Finished; it fails with AlreadyFinished on a Finished state (and in the
transactional host an error aborts the call, so the winning set and all other
state are unchanged); successful vote and cancelVote calls never change the
status; and every successful tally leaves the status Finished, so the transition
InProcess to Finished happens exactly once and is never reversed. -/
theorem C6_tally_monotone :
    (∀ s : State, s.status = Status.InProcess →
      contract_winning_proposal s = Except.ok (tallyResult s) ∧
      (tallyResult s).status = Status.Finished) ∧
    (∀ s : State, s.status = Status.Finished →
      contract_winning_proposal s = Except.error ContractError.AlreadyFinished) ∧
    (∀ (sender : Address) (t pid : Nat) (s s' : State),
      contract_vote sender t pid s = Except.ok s' → s'.status = s.status) ∧
    (∀ (sender : Address) (t : Nat) (s s' : State),
      cancel_vote sender t s = Except.ok s' → s'.status = s.status) ∧
    (∀ s s' : State, contract_winning_proposal s = Except.ok s' →
      s'.status = Status.Finished) := by
  refine ⟨?_, ?_, ?_, ?_, ?_⟩
  · intro s hst
    have hne : ¬ s.status = Status.Finished := by rw [hst]; simp
    exact ⟨by simp only [contract_winning_proposal, if_neg hne], rfl⟩
  · intro s hst
    simp only [contract_winning_proposal, if_pos hst]
  · intro sender t pid s s' hok
    exact (contract_vote_ok_frame hok).1
  · intro sender t s s' hok
    exact (cancel_vote_ok_frame hok).1
  · intro s s' hok
    rw [winning_proposal_ok_shape hok]
    rfl

/-- Witness for C6: the first tally on the all-zero state finishes, and a tally on
an already-Finished state fails with AlreadyFinished. -/
theorem C6_tally_monotone_witness :
    contract_winning_proposal exFinished = Except.error ContractError.AlreadyFinished ∧
    (tallyResult exPropsZero).status = Status.Finished :=
  ⟨C6_tally_monotone.2.1 exFinished rfl, (C6_tally_monotone.1 exPropsZero rfl).2⟩

/-- C7: a vote or cancelVote call whose sender is a contract identity always fails
with ContractSender, regardless of the state, the time, and the parameters. -/
theorem C7_contract_sender_rejected (c t pid : Nat) (s : State) :
    contract_vote (Address.Contract c) t pid s =
      Except.error ContractError.ContractSender ∧
    cancel_vote (Address.Contract c) t s =
      Except.error ContractError.ContractSender :=
  ⟨rfl, rfl⟩

/-- C8: with expiry T, a vote observed at time T + 1 fails with Expired, while a
vote observed at exactly T passes the inclusive deadline check and succeeds,
provided the proposal exists, the status is InProcess, the sender is an account,
and every voted record points at an existing proposal (as in every reachable
state). -/
theorem C8_expiry_boundary (s : State) (a pid T : Nat) (p : Proposal)
    (hT : s.expiry = T) (hp : lookupA s.proposals pid = some p)
    (hst : s.status = Status.InProcess) (ht : TargetsExist s) :
    contract_vote (Address.Account a) (T + 1) pid s =
      Except.error ContractError.Expired ∧
    exceptIsOk (contract_vote (Address.Account a) T pid s) = true := by
  have hne : ¬ s.status = Status.Finished := by rw [hst]; simp
  constructor
  · simp only [contract_vote, hp]
    rw [if_neg hne, if_neg (show ¬ T + 1 ≤ s.expiry by omega)]
  · simp only [contract_vote, hp]
    rw [if_neg hne, if_pos (show T ≤ s.expiry by omega)]
    simp only [State.vote]
    by_cases hvoted : ((lookupA s.voters a).getD ⟨0, false, 0⟩).voted = true
    · have hv : lookupA s.voters a = some ((lookupA s.voters a).getD ⟨0, false, 0⟩) := by
        cases hlv : lookupA s.voters a with
        | none => rw [hlv] at hvoted; simp at hvoted
        | some v₀ => rfl
      obtain ⟨q, hq⟩ := Option.isSome_iff_exists.mp (ht _ (lookupA_mem hv) hvoted)
      rw [undoPrevVote_voted hvoted hq]
      dsimp only []
      by_cases hpt : pid = ((lookupA s.voters a).getD ⟨0, false, 0⟩).vote
      · rw [hpt, lookupA_insertA_self]
        rfl
      · rw [lookupA_insertA_ne _ _ _ _ hpt, hp]
        rfl
    · have hnv : ((lookupA s.voters a).getD ⟨0, false, 0⟩).voted = false :=
        Bool.not_eq_true _ ▸ eq_false_of_ne_true hvoted
      rw [undoPrevVote_not_voted hnv]
      dsimp only []
      rw [hp]
      rfl

/-- Witness for C8 on a fresh single-proposal agenda with expiry 5: time 6 is
rejected as Expired and time 5 is accepted. -/
theorem C8_expiry_boundary_witness :
    contract_vote (Address.Account 1) 6 0 (State.empty "t" "d" ["a"] 5) =
      Except.error ContractError.Expired ∧
    exceptIsOk (contract_vote (Address.Account 1) 5 0 (State.empty "t" "d" ["a"] 5)) =
      true :=
  C8_expiry_boundary (State.empty "t" "d" ["a"] 5) 1 0 5 ⟨"a", 0⟩ rfl rfl rfl
    (by intro kv hkv; simp [State.empty] at hkv)

/-- C9: in every reachable state, a voted record's stored weight is at most the
vote count of the proposal it voted for, so the unsigned decrements
`vote_count -= weight` in the undo branch of `State::vote` and in
`State::cancel_vote` never underflow. -/
theorem C9_no_underflow (s : State) (h : Reachable s) :
    ∀ (a : Nat) (vs : VoterState) (p : Proposal),
      lookupA s.voters a = some vs → vs.voted = true →
      lookupA s.proposals vs.vote = some p → vs.weight ≤ p.vote_count := by
  intro a vs p hv hvoted hp
  have hc := (reachable_inv h).1
  have h1 : contrib vs vs.vote ≤ sumVotes s.voters vs.vote := contrib_le_sumVotes _ hv
  rw [contrib_voted_self hvoted] at h1
  rw [hc vs.vote p hp]
  exact h1

/-- Witness for C9 at the concrete reachable state where account 7 has voted for
proposal 0: the stored weight 1 is at most the count 1. -/
theorem C9_no_underflow_witness :
    (⟨1, true, 0⟩ : VoterState).weight ≤ (⟨"a", 1⟩ : Proposal).vote_count :=
  C9_no_underflow exVoted
    (Reachable.vote (Reachable.init "t" "d" ["a"] 3)
      (show contract_vote (Address.Account 7) 0 0 (State.empty "t" "d" ["a"] 3) =
        Except.ok exVoted by decide))
    7 ⟨1, true, 0⟩ ⟨"a", 1⟩ rfl rfl rfl

/-- C10 counterexample: on the empty-registry initial state a vote sent by a
contract identity fails with ContractSender, not with ProposalIsNotFound as the
claim's "every vote call" states. -/
theorem C10_counterexample :
    contract_vote (Address.Contract 0) 0 0 (State.empty "t" "d" [] 5) =
      Except.error ContractError.ContractSender ∧
    contract_vote (Address.Contract 0) 0 0 (State.empty "t" "d" [] 5) ≠
      Except.error ContractError.ProposalIsNotFound :=
  ⟨rfl, by decide⟩

/-- C10 amended: initializing with an empty proposal-name list gives a state on
which `winningProposal` still succeeds, setting the status to Finished while the
winning set stays empty, so Finished does not guarantee a non-empty winning set;
every vote call from an account identity fails with ProposalIsNotFound, and a
vote call from a contract identity fails with ContractSender. -/
theorem C10_empty_registry (title description : String) (expiry : Nat) :
    contract_winning_proposal (State.empty title description [] expiry) =
      Except.ok (tallyResult (State.empty title description [] expiry)) ∧
    (tallyResult (State.empty title description [] expiry)).status = Status.Finished ∧
    (tallyResult (State.empty title description [] expiry)).winning_proposal_id = [] ∧
    (∀ a t pid : Nat,
      contract_vote (Address.Account a) t pid (State.empty title description [] expiry) =
        Except.error ContractError.ProposalIsNotFound) ∧
    (∀ c t pid : Nat,
      contract_vote (Address.Contract c) t pid (State.empty title description [] expiry) =
        Except.error ContractError.ContractSender) :=
  ⟨rfl, rfl, rfl, fun _ _ _ => rfl, fun _ _ _ => rfl⟩

end Voting
